import Mathlib

set_option autoImplicit false

/-!
Verification of the v8pp class wrapper registry (`v8pp::class_` and its
object registry) against its natural-language specification.

The registry itself (`v8pp/class.hpp`) is exercised by `test/test_class.cpp`;
the model below is a shallow embedding of the registry's data model and
lifecycle operations: class descriptors, the per-descriptor instance table
with strong/weak entries, the single-parent cast chain, the two ownership
traits (`raw_ptr_traits` / non-owning and `shared_ptr_traits` /
shared-owning), and the collector pass that finalizes unreachable weak
wrappers.  Native instances are identified by `Nat` identities; the heap
records, per identity, the current number of ownership shares and the number
of times the destructor has run.
-/

namespace V8pp

/-- Modelled from the spec: the Ownership Trait axis — `nonOwning` is
`raw_ptr_traits` (script holds only a raw reference), `sharedOwning` is
`shared_ptr_traits` (script holds one of possibly many shared owners). -/
inductive Trait : Type
  | nonOwning
  | sharedOwning
deriving DecidableEq, Repr

/-- Modelled from the spec: strength of an Instance Table entry.  A strong
entry survives collector passes; a weak entry is collector-eligible once
unreachable from script. -/
inductive Strength : Type
  | strong
  | weak
deriving DecidableEq, Repr

/-- Modelled from the spec: the error taxonomy of §7. -/
inductive Err : Type
  | alreadyRegistered
  | alreadyLinked
  | unregisteredType
  | instanceNotTracked
  | conversionError
deriving DecidableEq, Repr

/-- Modelled from the spec: one Instance Table entry — the script-side
wrapper handle together with its strength. -/
structure Entry : Type where
  handle : Nat
  strength : Strength
deriving DecidableEq, Repr

/-- Modelled from the spec: the kind of a named binding attached to a
class descriptor (constant, field accessor pair, property, method). -/
inductive BindingKind : Type
  | constant
  | field
  | property
  | method
deriving DecidableEq, Repr

/-- Modelled from the spec: a named binding record on a descriptor. -/
structure Binding : Type where
  name : String
  kind : BindingKind
deriving DecidableEq, Repr

/-- Modelled from the spec: a Class Descriptor — type identity, ownership
trait, optional Cast Chain link to one base type, constructor factory flag,
named bindings, and the owned Instance Table (native identity ↦ entry). -/
structure Descriptor : Type where
  ty : Nat
  trait : Trait
  baseLink : Option Nat
  hasCtor : Bool
  bindings : List Binding
  table : List (Nat × Entry)
deriving DecidableEq, Repr

/-- Modelled from the spec: the native heap as observed through the
registry — per native instance identity, the number of live ownership
shares (for the non-owning trait an instance is simply alive iff its count
is positive) and the number of destructor runs. -/
structure Heap : Type where
  shareCount : Nat → Nat
  destroyedCount : Nat → Nat

/-- An instance is alive while at least one ownership share exists. -/
def Heap.alive (h : Heap) (i : Nat) : Bool :=
  decide (0 < h.shareCount i)

/-- Modelled from the spec: immediate destruction (non-owning
`destroy`): if the instance is alive, the destructor runs once and all
shares drop to zero; destroying a dead instance does nothing. -/
def Heap.destroy (h : Heap) (i : Nat) : Heap :=
  if 0 < h.shareCount i then
    { shareCount := fun j => if j = i then 0 else h.shareCount j
      destroyedCount := fun j => if j = i then h.destroyedCount j + 1 else h.destroyedCount j }
  else h

/-- Modelled from the spec: releasing one ownership share (shared-owning
`destroy`): the destructor runs only when the last share is released. -/
def Heap.release (h : Heap) (i : Nat) : Heap :=
  if 1 < h.shareCount i then
    { h with shareCount := fun j => if j = i then h.shareCount j - 1 else h.shareCount j }
  else h.destroy i

/-- Taking one additional ownership share of an instance (allocation of a
fresh instance takes the first share). -/
def Heap.addShare (h : Heap) (i : Nat) : Heap :=
  { h with shareCount := fun j => if j = i then h.shareCount j + 1 else h.shareCount j }

/-- Modelled from the spec: what releasing the script-held claim on an
instance does, per ownership trait — non-owning frees immediately,
shared-owning releases one share. -/
def scriptRelease : Trait → Heap → Nat → Heap
  | .nonOwning, h, i => h.destroy i
  | .sharedOwning, h, i => h.release i

/-- Instance-table lookup by native instance identity. -/
def tblGet : List (Nat × Entry) → Nat → Option Entry
  | [], _ => none
  | (k, e) :: rest, i => if k = i then some e else tblGet rest i

/-- Instance-table removal of the entry for one native identity. -/
def tblRemove : List (Nat × Entry) → Nat → List (Nat × Entry)
  | [], _ => []
  | (k, e) :: rest, i => if k = i then tblRemove rest i else (k, e) :: tblRemove rest i

/-- Reverse lookup: the native identity wrapped by a given handle. -/
def findByHandle : List (Nat × Entry) → Nat → Option Nat
  | [], _ => none
  | (k, e) :: rest, hnd => if e.handle = hnd then some k else findByHandle rest hnd

/-- The native identities keyed in an instance table. -/
def keysOf (tbl : List (Nat × Entry)) : List Nat :=
  tbl.map (fun p => p.1)

/-- The wrapper handles stored in an instance table. -/
def handlesOf (tbl : List (Nat × Entry)) : List Nat :=
  tbl.map (fun p => p.2.handle)

/-- The registry state of one scripting context: the registered class
descriptors, the observed native heap, and a fresh-handle counter. -/
structure Ctx : Type where
  descs : List Descriptor
  heap : Heap
  nextHandle : Nat

/-- Find the descriptor registered for a type. -/
def findDesc : List Descriptor → Nat → Option Descriptor
  | [], _ => none
  | d :: rest, t => if d.ty = t then some d else findDesc rest t

/-- The context's descriptor for a type, if registered. -/
def Ctx.desc (c : Ctx) (t : Nat) : Option Descriptor :=
  findDesc c.descs t

/-- Apply an update to every descriptor registered for a type. -/
def updateDescs (t : Nat) (f : Descriptor → Descriptor) : List Descriptor → List Descriptor
  | [] => []
  | d :: rest => (if d.ty = t then f d else d) :: updateDescs t f rest

/-- Modelled from the spec: `register(type, context, trait)` — creates a
new Class Descriptor, failing with `AlreadyRegistered` if a descriptor for
that (type, context) pair already exists. -/
def register (c : Ctx) (t : Nat) (tr : Trait) : Except Err Ctx :=
  match c.desc t with
  | some _ => .error .alreadyRegistered
  | none => .ok { c with descs := c.descs ++ [⟨t, tr, none, false, [], []⟩] }

/-- The state a caller is left with after attempting a registration: the
new state on success, the unchanged state when the attempt failed. -/
def tryRegister (c : Ctx) (t : Nat) (tr : Trait) : Ctx :=
  match register c t tr with
  | .ok c' => c'
  | .error _ => c

/-- Modelled from the spec: attaching a constructor factory to a
registered descriptor. -/
def bind_ctor (c : Ctx) (t : Nat) : Except Err Ctx :=
  match c.desc t with
  | none => .error .unregisteredType
  | some _ => .ok { c with descs := updateDescs t (fun d => { d with hasCtor := true }) c.descs }

/-- Modelled from the spec: attaching one named binding (constant, field,
property or method) to a registered descriptor. -/
def bind_member (c : Ctx) (t : Nat) (b : Binding) : Except Err Ctx :=
  match c.desc t with
  | none => .error .unregisteredType
  | some _ => .ok { c with descs := updateDescs t (fun d => { d with bindings := d.bindings ++ [b] }) c.descs }

/-- Modelled from the spec: `link_base` (the `inherit` call) — establishes
the single Cast Chain edge, failing with `AlreadyLinked` if this
descriptor already has a base. -/
def link_base (c : Ctx) (t base : Nat) : Except Err Ctx :=
  match c.desc t with
  | none => .error .unregisteredType
  | some d =>
    match d.baseLink with
    | some _ => .error .alreadyLinked
    | none => .ok { c with descs := updateDescs t (fun d' => { d' with baseLink := some base }) c.descs }

/-- The state a caller is left with after attempting to link a base. -/
def tryLink (c : Ctx) (t base : Nat) : Ctx :=
  match link_base c t base with
  | .ok c' => c'
  | .error _ => c

/-- Modelled from the spec: `create_wrapped` (`create_object`) —
constructs a fresh native instance (taking its first ownership share) and
wraps it under a weak entry; wrapping an already-tracked identity reuses
the existing entry. -/
def create_wrapped (c : Ctx) (t i : Nat) : Except Err (Nat × Ctx) :=
  match c.desc t with
  | none => .error .unregisteredType
  | some d =>
    match tblGet d.table i with
    | some e => .ok (e.handle, c)
    | none =>
      .ok (c.nextHandle,
        { descs := updateDescs t (fun d' => { d' with table := (i, ⟨c.nextHandle, .weak⟩) :: d'.table }) c.descs
          heap := c.heap.addShare i
          nextHandle := c.nextHandle + 1 })

/-- Modelled from the spec: `reference_external` — wraps a pre-existing,
externally owned instance under a strong entry (no ownership share is
taken: the instance must outlive arbitrary script reachability); an
already-tracked identity reuses the existing entry. -/
def reference_external (c : Ctx) (t i : Nat) : Except Err (Nat × Ctx) :=
  match c.desc t with
  | none => .error .unregisteredType
  | some d =>
    match tblGet d.table i with
    | some e => .ok (e.handle, c)
    | none =>
      .ok (c.nextHandle,
        { descs := updateDescs t (fun d' => { d' with table := (i, ⟨c.nextHandle, .strong⟩) :: d'.table }) c.descs
          heap := c.heap
          nextHandle := c.nextHandle + 1 })

/-- Modelled from the spec: `import_external` — wraps a pre-existing
instance under a weak entry; under the shared-owning trait the script
side takes one ownership share. -/
def import_external (c : Ctx) (t i : Nat) : Except Err (Nat × Ctx) :=
  match c.desc t with
  | none => .error .unregisteredType
  | some d =>
    match tblGet d.table i with
    | some e => .ok (e.handle, c)
    | none =>
      .ok (c.nextHandle,
        { descs := updateDescs t (fun d' => { d' with table := (i, ⟨c.nextHandle, .weak⟩) :: d'.table }) c.descs
          heap := if d.trait = .sharedOwning then c.heap.addShare i else c.heap
          nextHandle := c.nextHandle + 1 })

/-- Modelled from the spec: external code retaining one further ownership
share of an instance (e.g. the binding caller keeping a `shared_ptr`). -/
def retain_external (c : Ctx) (i : Nat) : Ctx :=
  { c with heap := c.heap.addShare i }

/-- Modelled from the spec: `unwrap` (`unwrap_object`) — resolves a script
handle back to the native identity it wraps; returns null (`none`) when
the handle holds no live wrapper, and fails with `UnregisteredType` when
the type was never registered. -/
def unwrap_object (c : Ctx) (t hnd : Nat) : Except Err (Option Nat) :=
  match c.desc t with
  | none => .error .unregisteredType
  | some d => .ok (findByHandle d.table hnd)

/-- Modelled from the spec: `to_script` (`find_object` / `to_v8`) —
re-obtains the script handle wrapping a native instance; fails with
`UnregisteredType` for an unregistered type and with `InstanceNotTracked`
when no live Instance Table entry exists for the instance. -/
def to_script (c : Ctx) (t i : Nat) : Except Err Nat :=
  match c.desc t with
  | none => .error .unregisteredType
  | some d =>
    match tblGet d.table i with
    | some e => .ok e.handle
    | none => .error .instanceNotTracked

/-- A script handle is empty when no live Instance Table entry of the
type's descriptor carries it. -/
def handle_empty (c : Ctx) (t hnd : Nat) : Bool :=
  match c.desc t with
  | none => true
  | some d => (findByHandle d.table hnd).isNone

/-- Modelled from the spec: `unreference_external` — removes a strong
entry (the script handle becomes empty); the native instance itself is
not destroyed, freeing it stays the caller's responsibility. -/
def unreference_external (c : Ctx) (t i : Nat) : Except Err Ctx :=
  match c.desc t with
  | none => .error .unregisteredType
  | some d =>
    match tblGet d.table i with
    | none => .error .instanceNotTracked
    | some _ => .ok { c with descs := updateDescs t (fun d' => { d' with table := tblRemove d'.table i }) c.descs }

/-- Modelled from the spec: `destroy_object` — explicit removal of one
entry; under the non-owning trait the instance is freed immediately,
under the shared-owning trait only the script-held share is released. -/
def destroy_object (c : Ctx) (t i : Nat) : Except Err Ctx :=
  match c.desc t with
  | none => .error .unregisteredType
  | some d =>
    match tblGet d.table i with
    | none => .error .instanceNotTracked
    | some _ =>
      .ok { descs := updateDescs t (fun d' => { d' with table := tblRemove d'.table i }) c.descs
            heap := scriptRelease d.trait c.heap i
            nextHandle := c.nextHandle }

/-- Release the script-held claim on every entry of a table, in order. -/
def releaseAll (tr : Trait) : List (Nat × Entry) → Heap → Heap
  | [], h => h
  | (k, _) :: rest, h => releaseAll tr rest (scriptRelease tr h k)

/-- Modelled from the spec: `destroy_all` (`class_::destroy`) — destroys
every live Instance Table entry of the descriptor, subject to the
Ownership Trait semantics, and clears the table. -/
def destroy_all (c : Ctx) (t : Nat) : Except Err Ctx :=
  match c.desc t with
  | none => .error .unregisteredType
  | some d =>
    .ok { descs := updateDescs t (fun d' => { d' with table := [] }) c.descs
          heap := releaseAll d.trait d.table c.heap
          nextHandle := c.nextHandle }

/-- Modelled from the spec: the table left by a full collector pass —
weak entries whose handles are unreachable from script are finalized and
removed; strong entries and reachable weak entries survive. -/
def sweepTable (reachable : List Nat) : List (Nat × Entry) → List (Nat × Entry)
  | [] => []
  | (k, e) :: rest =>
    if e.strength = .weak ∧ e.handle ∉ reachable then sweepTable reachable rest
    else (k, e) :: sweepTable reachable rest

/-- Modelled from the spec: the heap effect of finalizing one table — for
each collected weak entry the script-held claim is released under the
descriptor's trait (same semantics as `destroy_object`). -/
def sweepHeap (tr : Trait) (reachable : List Nat) : List (Nat × Entry) → Heap → Heap
  | [], h => h
  | (k, e) :: rest, h =>
    if e.strength = .weak ∧ e.handle ∉ reachable then sweepHeap tr reachable rest (scriptRelease tr h k)
    else sweepHeap tr reachable rest h

/-- The descriptor left by a full collector pass. -/
def collectDesc (reachable : List Nat) (d : Descriptor) : Descriptor :=
  { d with table := sweepTable reachable d.table }

/-- The heap left by a full collector pass over all descriptors. -/
def collectHeap (reachable : List Nat) : List Descriptor → Heap → Heap
  | [], h => h
  | d :: rest, h => collectHeap reachable rest (sweepHeap d.trait reachable d.table h)

/-- Modelled from the spec: a full collector pass — the host runtime
reports which wrapper handles are still reachable from script; every
unreachable weak entry's finalizer removes the entry and releases the
script-held claim on its instance. -/
def collect (c : Ctx) (reachable : List Nat) : Ctx :=
  { c with
    descs := c.descs.map (collectDesc reachable)
    heap := collectHeap reachable c.descs c.heap }

/-- The three wrapping operations of the lifecycle surface. -/
inductive WrapOp : Type
  | createWrapped
  | referenceExternal
  | importExternal
deriving DecidableEq, Repr

/-- Dispatch over the wrapping surface. -/
def wrapVia : WrapOp → Ctx → Nat → Nat → Except Err (Nat × Ctx)
  | .createWrapped, c, t, i => create_wrapped c t i
  | .referenceExternal, c, t, i => reference_external c t i
  | .importExternal, c, t, i => import_external c t i

/-! ### Helper lemmas: heap observations -/

theorem Heap.shareCount_destroy_other (h : Heap) (i j : Nat) (hne : j ≠ i) :
    (h.destroy i).shareCount j = h.shareCount j := by
  unfold Heap.destroy
  split
  · simp [hne]
  · rfl

theorem Heap.destroyedCount_destroy_other (h : Heap) (i j : Nat) (hne : j ≠ i) :
    (h.destroy i).destroyedCount j = h.destroyedCount j := by
  unfold Heap.destroy
  split
  · simp [hne]
  · rfl

theorem Heap.shareCount_release_other (h : Heap) (i j : Nat) (hne : j ≠ i) :
    (h.release i).shareCount j = h.shareCount j := by
  unfold Heap.release
  split
  · simp [hne]
  · exact h.shareCount_destroy_other i j hne

theorem Heap.destroyedCount_release_other (h : Heap) (i j : Nat) (hne : j ≠ i) :
    (h.release i).destroyedCount j = h.destroyedCount j := by
  unfold Heap.release
  split
  · rfl
  · exact h.destroyedCount_destroy_other i j hne

theorem scriptRelease_shareCount_other (tr : Trait) (h : Heap) (i j : Nat) (hne : j ≠ i) :
    (scriptRelease tr h i).shareCount j = h.shareCount j := by
  cases tr
  · exact h.shareCount_destroy_other i j hne
  · exact h.shareCount_release_other i j hne

theorem scriptRelease_destroyedCount_other (tr : Trait) (h : Heap) (i j : Nat) (hne : j ≠ i) :
    (scriptRelease tr h i).destroyedCount j = h.destroyedCount j := by
  cases tr
  · exact h.destroyedCount_destroy_other i j hne
  · exact h.destroyedCount_release_other i j hne

theorem Heap.shareCount_destroy_self (h : Heap) (i : Nat) (halive : 0 < h.shareCount i) :
    (h.destroy i).shareCount i = 0 := by
  unfold Heap.destroy
  rw [if_pos halive]
  simp

theorem Heap.destroyedCount_destroy_self (h : Heap) (i : Nat) (halive : 0 < h.shareCount i) :
    (h.destroy i).destroyedCount i = h.destroyedCount i + 1 := by
  unfold Heap.destroy
  rw [if_pos halive]
  simp

theorem Heap.shareCount_release_self (h : Heap) (i : Nat) (hshared : 2 ≤ h.shareCount i) :
    (h.release i).shareCount i = h.shareCount i - 1 := by
  unfold Heap.release
  rw [if_pos (by omega)]
  simp

theorem Heap.destroyedCount_release_self (h : Heap) (i : Nat) (hshared : 2 ≤ h.shareCount i) :
    (h.release i).destroyedCount i = h.destroyedCount i := by
  unfold Heap.release
  rw [if_pos (by omega)]

/-! ### Helper lemmas: instance tables -/

theorem tblGet_mem {tbl : List (Nat × Entry)} {i : Nat} {e : Entry}
    (h : tblGet tbl i = some e) : (i, e) ∈ tbl := by
  induction tbl with
  | nil => simp [tblGet] at h
  | cons p rest ih =>
    obtain ⟨k, e'⟩ := p
    by_cases hk : k = i
    · subst hk
      simp [tblGet] at h
      subst h
      exact List.mem_cons_self _ _
    · simp [tblGet, hk] at h
      exact List.mem_cons_of_mem _ (ih h)

theorem tblGet_none_forall {tbl : List (Nat × Entry)} {i : Nat}
    (h : tblGet tbl i = none) : ∀ p ∈ tbl, p.1 ≠ i := by
  induction tbl with
  | nil => intro p hp; simp at hp
  | cons q rest ih =>
    obtain ⟨k, e⟩ := q
    intro p hp
    by_cases hk : k = i
    · simp [tblGet, hk] at h
    · simp [tblGet, hk] at h
      rcases List.mem_cons.mp hp with hh | hh
      · subst hh; exact hk
      · exact ih h p hh

theorem tblGet_tblRemove_self (tbl : List (Nat × Entry)) (i : Nat) :
    tblGet (tblRemove tbl i) i = none := by
  induction tbl with
  | nil => rfl
  | cons p rest ih =>
    obtain ⟨k, e⟩ := p
    by_cases hk : k = i
    · simpa [tblRemove, hk] using ih
    · simpa [tblRemove, tblGet, hk] using ih

theorem handle_mem_of_tblGet {tbl : List (Nat × Entry)} {i : Nat} {e : Entry}
    (h : tblGet tbl i = some e) : e.handle ∈ handlesOf tbl := by
  have hm := tblGet_mem h
  exact List.mem_map.mpr ⟨(i, e), hm, rfl⟩

/-- With pairwise-distinct handles, the reverse lookup of a tracked
instance's handle finds exactly that instance. -/
theorem findByHandle_of_tblGet {tbl : List (Nat × Entry)} {i : Nat} {e : Entry}
    (hnodup : (handlesOf tbl).Nodup) (h : tblGet tbl i = some e) :
    findByHandle tbl e.handle = some i := by
  induction tbl with
  | nil => simp [tblGet] at h
  | cons p rest ih =>
    obtain ⟨k, e'⟩ := p
    simp only [handlesOf, List.map_cons, List.nodup_cons] at hnodup
    by_cases hk : k = i
    · subst hk
      simp [tblGet] at h
      subst h
      simp [findByHandle]
    · simp [tblGet, hk] at h
      have hmem : e.handle ∈ handlesOf rest := handle_mem_of_tblGet h
      have hne : e'.handle ≠ e.handle := by
        intro hcontra
        exact hnodup.1 (hcontra ▸ hmem)
      simp [findByHandle, hne]
      exact ih hnodup.2 h

/-- A handle carried by no entry of a table is not found by reverse lookup. -/
theorem findByHandle_none_of_not_mem {tbl : List (Nat × Entry)} {hnd : Nat}
    (h : hnd ∉ handlesOf tbl) : findByHandle tbl hnd = none := by
  induction tbl with
  | nil => rfl
  | cons p rest ih =>
    obtain ⟨k, e⟩ := p
    simp only [handlesOf, List.map_cons, List.mem_cons] at h
    push_neg at h
    simp only [findByHandle, if_neg (Ne.symm h.1)]
    exact ih h.2

theorem handlesOf_tblRemove_subset (tbl : List (Nat × Entry)) (i : Nat) :
    ∀ x ∈ handlesOf (tblRemove tbl i), x ∈ handlesOf tbl := by
  induction tbl with
  | nil => intro x hx; exact hx
  | cons p rest ih =>
    obtain ⟨k, e⟩ := p
    intro x hx
    by_cases hk : k = i
    · simp only [tblRemove, if_pos hk] at hx
      exact List.mem_cons_of_mem _ (ih x hx)
    · simp only [tblRemove, if_neg hk, handlesOf, List.map_cons, List.mem_cons] at hx ⊢
      rcases hx with hx | hx
      · exact Or.inl hx
      · exact Or.inr (ih x hx)

/-- With pairwise-distinct handles, removing the entry of an instance
leaves no entry carrying that instance's handle. -/
theorem findByHandle_tblRemove {tbl : List (Nat × Entry)} {i : Nat} {e : Entry}
    (hnodup : (handlesOf tbl).Nodup) (h : tblGet tbl i = some e) :
    findByHandle (tblRemove tbl i) e.handle = none := by
  induction tbl with
  | nil => simp [tblGet] at h
  | cons p rest ih =>
    obtain ⟨k, e'⟩ := p
    simp only [handlesOf, List.map_cons, List.nodup_cons] at hnodup
    by_cases hk : k = i
    · subst hk
      have h' : e' = e := by simpa [tblGet] using h
      subst h'
      simp only [tblRemove, if_pos rfl]
      exact findByHandle_none_of_not_mem
        (fun hm => hnodup.1 (handlesOf_tblRemove_subset rest k _ hm))
    · simp only [tblGet, if_neg hk] at h
      have hmem : e.handle ∈ handlesOf rest := handle_mem_of_tblGet h
      have hne : e'.handle ≠ e.handle := fun hc => hnodup.1 (hc ▸ hmem)
      simp only [tblRemove, if_neg hk, findByHandle, if_neg hne]
      exact ih hnodup.2 h

/-! ### Helper lemmas: descriptor lists -/

theorem findDesc_ty {l : List Descriptor} {t : Nat} {d : Descriptor}
    (h : findDesc l t = some d) : d.ty = t := by
  induction l with
  | nil => simp [findDesc] at h
  | cons d' rest ih =>
    by_cases ht : d'.ty = t
    · have h' : d' = d := by simpa [findDesc, ht] using h
      subst h'
      exact ht
    · simp only [findDesc, if_neg ht] at h
      exact ih h

theorem findDesc_updateDescs (t : Nat) (f : Descriptor → Descriptor) (l : List Descriptor)
    (hty : ∀ d, (f d).ty = d.ty) :
    findDesc (updateDescs t f l) t = (findDesc l t).map f := by
  induction l with
  | nil => rfl
  | cons d rest ih =>
    by_cases ht : d.ty = t
    · simp [updateDescs, findDesc, ht, hty d]
    · simp only [updateDescs, if_neg ht, findDesc]
      exact ih

theorem findDesc_updateDescs_other (t t' : Nat) (f : Descriptor → Descriptor)
    (l : List Descriptor) (hty : ∀ d, (f d).ty = d.ty) (hne : t' ≠ t) :
    findDesc (updateDescs t f l) t' = findDesc l t' := by
  induction l with
  | nil => rfl
  | cons d rest ih =>
    by_cases ht : d.ty = t
    · have : (f d).ty ≠ t' := by rw [hty d, ht]; exact fun hc => hne hc.symm
      simp only [updateDescs, if_pos ht, findDesc, if_neg this]
      rw [if_neg (fun hc : d.ty = t' => this (by rw [hty d]; exact hc)), ih]
    · simp only [updateDescs, if_neg ht, findDesc]
      by_cases ht' : d.ty = t'
      · rw [if_pos ht', if_pos ht']
      · rw [if_neg ht', if_neg ht', ih]

theorem mem_updateDescs {t : Nat} {f : Descriptor → Descriptor} {l : List Descriptor}
    {d' : Descriptor} (h : d' ∈ updateDescs t f l) :
    ∃ d ∈ l, d' = if d.ty = t then f d else d := by
  induction l with
  | nil => simp [updateDescs] at h
  | cons d rest ih =>
    simp only [updateDescs, List.mem_cons] at h
    rcases h with h | h
    · exact ⟨d, List.mem_cons_self _ _, h⟩
    · obtain ⟨d0, hd0, hval⟩ := ih h
      exact ⟨d0, List.mem_cons_of_mem _ hd0, hval⟩

theorem findDesc_append_of_none {l1 l2 : List Descriptor} {t : Nat}
    (h : findDesc l1 t = none) : findDesc (l1 ++ l2) t = findDesc l2 t := by
  induction l1 with
  | nil => rfl
  | cons d rest ih =>
    by_cases ht : d.ty = t
    · simp [findDesc, ht] at h
    · simp only [findDesc, if_neg ht] at h
      simp only [List.cons_append, findDesc, if_neg ht]
      exact ih h

theorem findDesc_append_left {pre post : List Descriptor} {d : Descriptor}
    (hpre : ∀ d' ∈ pre, d'.ty ≠ d.ty) :
    findDesc (pre ++ d :: post) d.ty = some d := by
  induction pre with
  | nil => simp [findDesc]
  | cons d' rest ih =>
    simp only [List.cons_append, findDesc,
      if_neg (hpre d' (List.mem_cons_self _ _))]
    exact ih (fun d'' hd'' => hpre d'' (List.mem_cons_of_mem _ hd''))

/-! ### Helper lemmas: collector sweep and bulk release -/

theorem sweepHeap_shareCount_other (tr : Trait) (r : List Nat) (tbl : List (Nat × Entry))
    (i : Nat) (hni : tblGet tbl i = none) :
    ∀ h : Heap, (sweepHeap tr r tbl h).shareCount i = h.shareCount i := by
  induction tbl with
  | nil => intro h; rfl
  | cons p rest ih =>
    obtain ⟨k, e⟩ := p
    intro h
    have hk : k ≠ i := tblGet_none_forall hni (k, e) (List.mem_cons_self _ _)
    have hrest : tblGet rest i = none := by
      simpa [tblGet, hk] using hni
    by_cases hc : e.strength = .weak ∧ e.handle ∉ r
    · simp only [sweepHeap, if_pos hc]
      rw [ih hrest, scriptRelease_shareCount_other tr h k i (fun hc' => hk hc'.symm)]
    · simp only [sweepHeap, if_neg hc]
      exact ih hrest h

theorem sweepHeap_destroyedCount_other (tr : Trait) (r : List Nat) (tbl : List (Nat × Entry))
    (i : Nat) (hni : tblGet tbl i = none) :
    ∀ h : Heap, (sweepHeap tr r tbl h).destroyedCount i = h.destroyedCount i := by
  induction tbl with
  | nil => intro h; rfl
  | cons p rest ih =>
    obtain ⟨k, e⟩ := p
    intro h
    have hk : k ≠ i := tblGet_none_forall hni (k, e) (List.mem_cons_self _ _)
    have hrest : tblGet rest i = none := by
      simpa [tblGet, hk] using hni
    by_cases hc : e.strength = .weak ∧ e.handle ∉ r
    · simp only [sweepHeap, if_pos hc]
      rw [ih hrest, scriptRelease_destroyedCount_other tr h k i (fun hc' => hk hc'.symm)]
    · simp only [sweepHeap, if_neg hc]
      exact ih hrest h

theorem Heap.shareCount_destroy_eq (h : Heap) (i : Nat) :
    (h.destroy i).shareCount i = if 0 < h.shareCount i then 0 else h.shareCount i := by
  unfold Heap.destroy
  split
  · simp
  · rfl

theorem Heap.destroyedCount_destroy_eq (h : Heap) (i : Nat) :
    (h.destroy i).destroyedCount i =
      if 0 < h.shareCount i then h.destroyedCount i + 1 else h.destroyedCount i := by
  unfold Heap.destroy
  split
  · simp
  · rfl

theorem Heap.shareCount_release_eq (h : Heap) (i : Nat) :
    (h.release i).shareCount i =
      if 1 < h.shareCount i then h.shareCount i - 1
      else if 0 < h.shareCount i then 0 else h.shareCount i := by
  unfold Heap.release
  by_cases h1 : 1 < h.shareCount i
  · rw [if_pos h1, if_pos h1]
    simp
  · rw [if_neg h1, if_neg h1, h.shareCount_destroy_eq i]

theorem Heap.destroyedCount_release_eq (h : Heap) (i : Nat) :
    (h.release i).destroyedCount i =
      if 1 < h.shareCount i then h.destroyedCount i
      else if 0 < h.shareCount i then h.destroyedCount i + 1 else h.destroyedCount i := by
  unfold Heap.release
  by_cases h1 : 1 < h.shareCount i
  · rw [if_pos h1, if_pos h1]
  · rw [if_neg h1, if_neg h1, h.destroyedCount_destroy_eq i]

/-- The observations of an instance after a script-side release depend on
the pre-state only through the observations of that same instance. -/
theorem scriptRelease_obs_congr (tr : Trait) (h h' : Heap) (i : Nat)
    (hs : h'.shareCount i = h.shareCount i)
    (hd : h'.destroyedCount i = h.destroyedCount i) :
    (scriptRelease tr h' i).shareCount i = (scriptRelease tr h i).shareCount i ∧
    (scriptRelease tr h' i).destroyedCount i = (scriptRelease tr h i).destroyedCount i := by
  cases tr
  · constructor
    · rw [show scriptRelease Trait.nonOwning h' i = h'.destroy i from rfl,
        show scriptRelease Trait.nonOwning h i = h.destroy i from rfl,
        Heap.shareCount_destroy_eq, Heap.shareCount_destroy_eq, hs]
    · rw [show scriptRelease Trait.nonOwning h' i = h'.destroy i from rfl,
        show scriptRelease Trait.nonOwning h i = h.destroy i from rfl,
        Heap.destroyedCount_destroy_eq, Heap.destroyedCount_destroy_eq, hs, hd]
  · constructor
    · rw [show scriptRelease Trait.sharedOwning h' i = h'.release i from rfl,
        show scriptRelease Trait.sharedOwning h i = h.release i from rfl,
        Heap.shareCount_release_eq, Heap.shareCount_release_eq, hs]
    · rw [show scriptRelease Trait.sharedOwning h' i = h'.release i from rfl,
        show scriptRelease Trait.sharedOwning h i = h.release i from rfl,
        Heap.destroyedCount_release_eq, Heap.destroyedCount_release_eq, hs, hd]

/-- A table with pairwise-distinct keys finalizes a collected weak entry
exactly once: the heap observations of its instance after the sweep are
those of a single script-side release. -/
theorem sweepHeap_hit (tr : Trait) (r : List Nat) (tbl : List (Nat × Entry))
    (i : Nat) (e : Entry) (hnodup : (keysOf tbl).Nodup)
    (he : tblGet tbl i = some e) (hweak : e.strength = .weak) (hr : e.handle ∉ r) :
    ∀ h : Heap,
      (sweepHeap tr r tbl h).shareCount i = (scriptRelease tr h i).shareCount i ∧
      (sweepHeap tr r tbl h).destroyedCount i = (scriptRelease tr h i).destroyedCount i := by
  induction tbl with
  | nil => simp [tblGet] at he
  | cons p rest ih =>
    obtain ⟨k, e'⟩ := p
    simp only [keysOf, List.map_cons, List.nodup_cons] at hnodup
    intro h
    by_cases hk : k = i
    · subst hk
      have h' : e' = e := by simpa [tblGet] using he
      subst h'
      have hc : e'.strength = .weak ∧ e'.handle ∉ r := ⟨hweak, hr⟩
      simp only [sweepHeap, if_pos hc]
      have hni : tblGet rest k = none := by
        rcases hni : tblGet rest k with _ | e2
        · rfl
        · exact absurd (List.mem_map.mpr ⟨(k, e2), tblGet_mem hni, rfl⟩) hnodup.1
      exact ⟨sweepHeap_shareCount_other tr r rest k hni _,
             sweepHeap_destroyedCount_other tr r rest k hni _⟩
    · simp only [tblGet, if_neg hk] at he
      have hkn : i ≠ k := fun hc' => hk hc'.symm
      by_cases hc : e'.strength = .weak ∧ e'.handle ∉ r
      · simp only [sweepHeap, if_pos hc]
        have hrec := ih hnodup.2 he (scriptRelease tr h k)
        have hcongr := scriptRelease_obs_congr tr h (scriptRelease tr h k) i
          (scriptRelease_shareCount_other tr h k i hkn)
          (scriptRelease_destroyedCount_other tr h k i hkn)
        exact ⟨hrec.1.trans hcongr.1, hrec.2.trans hcongr.2⟩
      · simp only [sweepHeap, if_neg hc]
        exact ih hnodup.2 he h

/-- A table without an entry for an instance still has none after a sweep. -/
theorem tblGet_sweepTable_of_none (r : List Nat) (tbl : List (Nat × Entry)) (i : Nat)
    (hni : tblGet tbl i = none) : tblGet (sweepTable r tbl) i = none := by
  induction tbl with
  | nil => rfl
  | cons p rest ih =>
    obtain ⟨k, e⟩ := p
    have hk : k ≠ i := tblGet_none_forall hni (k, e) (List.mem_cons_self _ _)
    have hrest : tblGet rest i = none := by simpa [tblGet, hk] using hni
    by_cases hc : e.strength = .weak ∧ e.handle ∉ r
    · simp only [sweepTable, if_pos hc]
      exact ih hrest
    · simp only [sweepTable, if_neg hc, tblGet, if_neg hk]
      exact ih hrest

/-- A collected weak entry is gone from the swept table. -/
theorem tblGet_sweepTable_none (r : List Nat) (tbl : List (Nat × Entry))
    (i : Nat) (e : Entry) (hnodup : (keysOf tbl).Nodup)
    (he : tblGet tbl i = some e) (hweak : e.strength = .weak) (hr : e.handle ∉ r) :
    tblGet (sweepTable r tbl) i = none := by
  induction tbl with
  | nil => simp [tblGet] at he
  | cons p rest ih =>
    obtain ⟨k, e'⟩ := p
    simp only [keysOf, List.map_cons, List.nodup_cons] at hnodup
    by_cases hk : k = i
    · subst hk
      have h' : e' = e := by simpa [tblGet] using he
      subst h'
      have hc : e'.strength = .weak ∧ e'.handle ∉ r := ⟨hweak, hr⟩
      simp only [sweepTable, if_pos hc]
      have hni : tblGet rest k = none := by
        rcases hni : tblGet rest k with _ | e2
        · rfl
        · exact absurd (List.mem_map.mpr ⟨(k, e2), tblGet_mem hni, rfl⟩) hnodup.1
      exact tblGet_sweepTable_of_none r rest k hni
    · simp only [tblGet, if_neg hk] at he
      by_cases hc : e'.strength = .weak ∧ e'.handle ∉ r
      · simp only [sweepTable, if_pos hc]
        exact ih hnodup.2 he
      · simp only [sweepTable, if_neg hc, tblGet, if_neg hk]
        exact ih hnodup.2 he

theorem collectHeap_append (r : List Nat) (l1 l2 : List Descriptor) (h : Heap) :
    collectHeap r (l1 ++ l2) h = collectHeap r l2 (collectHeap r l1 h) := by
  induction l1 generalizing h with
  | nil => rfl
  | cons d rest ih =>
    simp only [List.cons_append, collectHeap]
    exact ih _

theorem collectHeap_shareCount_other (r : List Nat) (l : List Descriptor) (i : Nat)
    (hni : ∀ d ∈ l, tblGet d.table i = none) :
    ∀ h : Heap, (collectHeap r l h).shareCount i = h.shareCount i := by
  induction l with
  | nil => intro h; rfl
  | cons d rest ih =>
    intro h
    simp only [collectHeap]
    rw [ih (fun d' hd' => hni d' (List.mem_cons_of_mem _ hd')),
      sweepHeap_shareCount_other d.trait r d.table i (hni d (List.mem_cons_self _ _))]

theorem collectHeap_destroyedCount_other (r : List Nat) (l : List Descriptor) (i : Nat)
    (hni : ∀ d ∈ l, tblGet d.table i = none) :
    ∀ h : Heap, (collectHeap r l h).destroyedCount i = h.destroyedCount i := by
  induction l with
  | nil => intro h; rfl
  | cons d rest ih =>
    intro h
    simp only [collectHeap]
    rw [ih (fun d' hd' => hni d' (List.mem_cons_of_mem _ hd')),
      sweepHeap_destroyedCount_other d.trait r d.table i (hni d (List.mem_cons_self _ _))]

theorem releaseAll_shareCount_other (tr : Trait) (tbl : List (Nat × Entry)) (i : Nat)
    (hni : tblGet tbl i = none) :
    ∀ h : Heap, (releaseAll tr tbl h).shareCount i = h.shareCount i := by
  induction tbl with
  | nil => intro h; rfl
  | cons p rest ih =>
    obtain ⟨k, e⟩ := p
    intro h
    have hk : k ≠ i := tblGet_none_forall hni (k, e) (List.mem_cons_self _ _)
    have hrest : tblGet rest i = none := by simpa [tblGet, hk] using hni
    simp only [releaseAll]
    rw [ih hrest, scriptRelease_shareCount_other tr h k i (fun hc => hk hc.symm)]

theorem releaseAll_destroyedCount_other (tr : Trait) (tbl : List (Nat × Entry)) (i : Nat)
    (hni : tblGet tbl i = none) :
    ∀ h : Heap, (releaseAll tr tbl h).destroyedCount i = h.destroyedCount i := by
  induction tbl with
  | nil => intro h; rfl
  | cons p rest ih =>
    obtain ⟨k, e⟩ := p
    intro h
    have hk : k ≠ i := tblGet_none_forall hni (k, e) (List.mem_cons_self _ _)
    have hrest : tblGet rest i = none := by simpa [tblGet, hk] using hni
    simp only [releaseAll]
    rw [ih hrest, scriptRelease_destroyedCount_other tr h k i (fun hc => hk hc.symm)]

theorem findDesc_map_collectDesc (r : List Nat) (l : List Descriptor) (t : Nat) :
    findDesc (l.map (collectDesc r)) t = (findDesc l t).map (collectDesc r) := by
  induction l with
  | nil => rfl
  | cons d rest ih =>
    by_cases ht : d.ty = t
    · simp [findDesc, collectDesc, ht]
    · have ht' : (collectDesc r d).ty ≠ t := ht
      simp only [List.map_cons, findDesc, if_neg ht, if_neg ht']
      exact ih

theorem updateDescs_self_fixpoint (t : Nat) (f : Descriptor → Descriptor)
    (hty : ∀ d, (f d).ty = d.ty) (hff : ∀ d, f (f d) = f d) (l : List Descriptor) :
    updateDescs t f (updateDescs t f l) = updateDescs t f l := by
  induction l with
  | nil => rfl
  | cons d rest ih =>
    by_cases ht : d.ty = t
    · have hft : (f d).ty = t := by rw [hty d]; exact ht
      simp only [updateDescs, if_pos ht, if_pos hft, hff d, ih]
    · have hft : d.ty ≠ t := ht
      simp only [updateDescs, if_neg ht, if_neg hft, ih]

/-! ### Claim theorems -/

/-- C6: for every type and context, registering the type a second time on
the same context fails with `AlreadyRegistered`, and the bindings of the
first registration remain usable afterward: the failed attempt leaves the
context (and hence the descriptor with its constructor, constants, fields,
properties and methods) exactly as it was. -/
theorem C6_register_twice (c c1 : Ctx) (t : Nat) (tr : Trait)
    (h1 : register c t tr = .ok c1) :
    (c1.desc t).isSome = true ∧
    ∀ (c2 : Ctx) (d : Descriptor) (tr' : Trait), c2.desc t = some d →
      register c2 t tr' = .error .alreadyRegistered ∧ tryRegister c2 t tr' = c2 := by
  constructor
  · unfold register at h1
    rcases hdesc : c.desc t with _ | d0
    · rw [hdesc] at h1
      simp only [Except.ok.injEq] at h1
      subst h1
      show (findDesc (c.descs ++ [⟨t, tr, none, false, [], []⟩]) t).isSome = true
      rw [findDesc_append_of_none hdesc]
      simp [findDesc]
    · rw [hdesc] at h1
      simp at h1
  · intro c2 d tr' hd
    have hreg : register c2 t tr' = .error .alreadyRegistered := by
      unfold register
      rw [hd]
    refine ⟨hreg, ?_⟩
    unfold tryRegister
    rw [hreg]

/-- C7: `destroy_all` is idempotent — after a first call has destroyed
every live Instance Table entry of a descriptor and cleared its table, a
second call returns the very same state: no destructor runs again and no
error is raised. -/
theorem C7_destroy_all_idempotent (c c1 : Ctx) (t : Nat)
    (h1 : destroy_all c t = .ok c1) :
    destroy_all c1 t = .ok c1 := by
  unfold destroy_all at h1 ⊢
  rcases hdesc : c.desc t with _ | d
  · rw [hdesc] at h1
    simp at h1
  · rw [hdesc] at h1
    simp only [Except.ok.injEq] at h1
    have hdesc' : findDesc c.descs t = some d := hdesc
    have hd1 : c1.desc t = some { d with table := [] } := by
      rw [← h1]
      show findDesc (updateDescs t (fun d' => { d' with table := [] }) c.descs) t = _
      rw [findDesc_updateDescs t (fun d' => { d' with table := [] }) c.descs (fun _ => rfl),
        hdesc']
      rfl
    rw [hd1]
    have hdescs1 : updateDescs t (fun d' => { d' with table := [] }) c1.descs = c1.descs := by
      rw [← h1]
      exact updateDescs_self_fixpoint t (fun d' => { d' with table := [] })
        (fun _ => rfl) (fun _ => rfl) c.descs
    rw [hdescs1]
    show Except.ok ⟨c1.descs, c1.heap, c1.nextHandle⟩ = Except.ok c1
    rfl

/-- C8: for every descriptor that already has a base link, a second
`link_base` (`inherit`) call fails with `AlreadyLinked`, and the first
base link remains in effect (the failed attempt leaves the context
unchanged, its descriptor still linked to the first base). -/
theorem C8_link_base_twice (c c1 : Ctx) (t b : Nat)
    (h1 : link_base c t b = .ok c1) :
    (c1.desc t).map Descriptor.baseLink = some (some b) ∧
      ∀ b', link_base c1 t b' = .error .alreadyLinked ∧ tryLink c1 t b' = c1 := by
  unfold link_base at h1
  rcases hdesc : c.desc t with _ | d
  · rw [hdesc] at h1
    simp at h1
  · have hdesc' : findDesc c.descs t = some d := hdesc
    rw [hdesc] at h1
    dsimp only at h1
    rcases hbl : d.baseLink with _ | b0
    · rw [hbl] at h1
      dsimp only at h1
      simp only [Except.ok.injEq] at h1
      have hd1 : c1.desc t = some { d with baseLink := some b } := by
        rw [← h1]
        show findDesc (updateDescs t (fun d' => { d' with baseLink := some b }) c.descs) t = _
        rw [findDesc_updateDescs t (fun d' => { d' with baseLink := some b }) c.descs
          (fun _ => rfl), hdesc']
        rfl
      refine ⟨by rw [hd1]; rfl, ?_⟩
      intro b'
      have hlink : link_base c1 t b' = .error .alreadyLinked := by
        unfold link_base
        rw [hd1]
      refine ⟨hlink, ?_⟩
      unfold tryLink
      rw [hlink]
    · rw [hbl] at h1
      simp at h1

/-- C9: looking up or unwrapping an instance of a type for which no Class
Descriptor was ever registered on the context fails with
`UnregisteredType` — a distinguishable error, not a null return. -/
theorem C9_unregistered_type (c : Ctx) (t hnd i : Nat)
    (h : c.desc t = none) :
    unwrap_object c t hnd = .error .unregisteredType ∧
    to_script c t i = .error .unregisteredType := by
  unfold unwrap_object to_script
  rw [h]
  exact ⟨rfl, rfl⟩

/-- The round trip holds in any state in which an instance's entry is
still present (i.e. until it is released), provided table handles are
pairwise distinct. -/
theorem roundtrip_of_entry (c' : Ctx) (t i hnd : Nat) (d' : Descriptor) (e : Entry)
    (hd : c'.desc t = some d') (he : tblGet d'.table i = some e) (hh : e.handle = hnd)
    (hnodup : (handlesOf d'.table).Nodup) :
    unwrap_object c' t hnd = .ok (some i) ∧ to_script c' t i = .ok hnd := by
  constructor
  · unfold unwrap_object
    rw [hd]
    dsimp only
    rw [← hh, findByHandle_of_tblGet hnodup he]
  · unfold to_script
    rw [hd]
    dsimp only
    rw [he]
    dsimp only
    rw [hh]

/-- C1: for every instance wrapped through the lifecycle surface
(`create_wrapped`/`create_object`, `reference_external` or
`import_external`), unwrapping the resulting script handle yields exactly
that instance and converting the instance to a script value yields exactly
that handle — both immediately after wrapping and in every later state in
which the entry has not yet been released. -/
theorem C1_wrap_roundtrip (op : WrapOp) (c c2 : Ctx) (t i hnd : Nat) (d : Descriptor)
    (hd : c.desc t = some d)
    (hfresh : tblGet d.table i = none)
    (hw : wrapVia op c t i = .ok (hnd, c2)) :
    (unwrap_object c2 t hnd = .ok (some i) ∧ to_script c2 t i = .ok hnd) ∧
    ∀ (c' : Ctx) (d' : Descriptor) (e : Entry),
      c'.desc t = some d' → tblGet d'.table i = some e → e.handle = hnd →
      (handlesOf d'.table).Nodup →
      unwrap_object c' t hnd = .ok (some i) ∧ to_script c' t i = .ok hnd := by
  have hdesc' : findDesc c.descs t = some d := hd
  constructor
  · -- immediately after wrapping, the fresh entry heads the table
    have key : ∃ s : Strength, hnd = c.nextHandle ∧
        c2.desc t = some { d with table := (i, ⟨c.nextHandle, s⟩) :: d.table } := by
      cases op with
      | createWrapped =>
        unfold wrapVia create_wrapped at hw
        dsimp only at hw
        rw [hd] at hw
        dsimp only at hw
        rw [hfresh] at hw
        dsimp only at hw
        simp only [Except.ok.injEq, Prod.mk.injEq] at hw
        refine ⟨.weak, hw.1.symm, ?_⟩
        rw [← hw.2]
        show findDesc (updateDescs t _ c.descs) t = _
        rw [findDesc_updateDescs t
          (fun d' => { d' with table := (i, ⟨c.nextHandle, .weak⟩) :: d'.table }) c.descs
          (fun _ => rfl), hdesc']
        rfl
      | referenceExternal =>
        unfold wrapVia reference_external at hw
        dsimp only at hw
        rw [hd] at hw
        dsimp only at hw
        rw [hfresh] at hw
        dsimp only at hw
        simp only [Except.ok.injEq, Prod.mk.injEq] at hw
        refine ⟨.strong, hw.1.symm, ?_⟩
        rw [← hw.2]
        show findDesc (updateDescs t _ c.descs) t = _
        rw [findDesc_updateDescs t
          (fun d' => { d' with table := (i, ⟨c.nextHandle, .strong⟩) :: d'.table }) c.descs
          (fun _ => rfl), hdesc']
        rfl
      | importExternal =>
        unfold wrapVia import_external at hw
        dsimp only at hw
        rw [hd] at hw
        dsimp only at hw
        rw [hfresh] at hw
        dsimp only at hw
        simp only [Except.ok.injEq, Prod.mk.injEq] at hw
        refine ⟨.weak, hw.1.symm, ?_⟩
        rw [← hw.2]
        show findDesc (updateDescs t _ c.descs) t = _
        rw [findDesc_updateDescs t
          (fun d' => { d' with table := (i, ⟨c.nextHandle, .weak⟩) :: d'.table }) c.descs
          (fun _ => rfl), hdesc']
        rfl
    obtain ⟨s, hhnd, hd2⟩ := key
    subst hhnd
    constructor
    · unfold unwrap_object
      rw [hd2]
      dsimp only
      rw [show findByHandle ((i, ⟨c.nextHandle, s⟩) :: d.table) c.nextHandle = some i from
        by simp [findByHandle]]
    · unfold to_script
      rw [hd2]
      dsimp only
      rw [show tblGet ((i, ⟨c.nextHandle, s⟩) :: d.table) i = some ⟨c.nextHandle, s⟩ from
        by simp [tblGet]]
  · intro c' d' e hd' he hh hnodup
    exact roundtrip_of_entry c' t i hnd d' e hd' he hh hnodup

/-- C4: after `unreference_external` removed the strong entry of an
instance, unwrapping the old handle returns null, converting the instance
back to a script value fails with `InstanceNotTracked` (the binding is not
silently recreated), and the old script handle is empty. -/
theorem C4_unreference_removes_binding (c c2 : Ctx) (t i : Nat) (d : Descriptor) (e : Entry)
    (hd : c.desc t = some d)
    (he : tblGet d.table i = some e)
    (_hstrong : e.strength = .strong)
    (hnodup : (handlesOf d.table).Nodup)
    (hu : unreference_external c t i = .ok c2) :
    unwrap_object c2 t e.handle = .ok none ∧
    to_script c2 t i = .error .instanceNotTracked ∧
    handle_empty c2 t e.handle = true := by
  have hdesc' : findDesc c.descs t = some d := hd
  unfold unreference_external at hu
  rw [hd] at hu
  dsimp only at hu
  rw [he] at hu
  dsimp only at hu
  simp only [Except.ok.injEq] at hu
  have hd2 : c2.desc t = some { d with table := tblRemove d.table i } := by
    rw [← hu]
    show findDesc (updateDescs t _ c.descs) t = _
    rw [findDesc_updateDescs t (fun d' => { d' with table := tblRemove d'.table i }) c.descs
      (fun _ => rfl), hdesc']
    rfl
  refine ⟨?_, ?_, ?_⟩
  · unfold unwrap_object
    rw [hd2]
    dsimp only
    rw [findByHandle_tblRemove hnodup he]
  · unfold to_script
    rw [hd2]
    dsimp only
    rw [tblGet_tblRemove_self d.table i]
  · unfold handle_empty
    rw [hd2]
    dsimp only
    rw [findByHandle_tblRemove hnodup he]
    rfl

/-- C10: `unreference_external` removes the Instance Table entry and
empties the handle but never destroys the native instance: the heap is
untouched, and the instance's shares and destructor count survive any
subsequent collector pass and any subsequent `destroy_all` unchanged —
freeing it is the caller's responsibility. -/
theorem C10_unreference_never_destroys (c c2 : Ctx) (t i : Nat) (d : Descriptor) (e : Entry)
    (hd : c.desc t = some d)
    (he : tblGet d.table i = some e)
    (_hstrong : e.strength = .strong)
    (honly : ∀ d' ∈ c.descs, d'.ty ≠ t → tblGet d'.table i = none)
    (hu : unreference_external c t i = .ok c2) :
    c2.heap = c.heap ∧
    (∀ d'', c2.desc t = some d'' → tblGet d''.table i = none) ∧
    (∀ r, (collect c2 r).heap.shareCount i = c.heap.shareCount i ∧
          (collect c2 r).heap.destroyedCount i = c.heap.destroyedCount i) ∧
    (∀ c3, destroy_all c2 t = .ok c3 →
       c3.heap.shareCount i = c.heap.shareCount i ∧
       c3.heap.destroyedCount i = c.heap.destroyedCount i) := by
  have hdesc' : findDesc c.descs t = some d := hd
  unfold unreference_external at hu
  rw [hd] at hu
  dsimp only at hu
  rw [he] at hu
  dsimp only at hu
  simp only [Except.ok.injEq] at hu
  have hd2 : c2.desc t = some { d with table := tblRemove d.table i } := by
    rw [← hu]
    show findDesc (updateDescs t _ c.descs) t = _
    rw [findDesc_updateDescs t (fun d' => { d' with table := tblRemove d'.table i }) c.descs
      (fun _ => rfl), hdesc']
    rfl
  have hheap : c2.heap = c.heap := by rw [← hu]
  have hclean : ∀ d' ∈ c2.descs, tblGet d'.table i = none := by
    intro d' hd'
    have hdescs2 : c2.descs =
        updateDescs t (fun d0 => { d0 with table := tblRemove d0.table i }) c.descs := by
      rw [← hu]
    rw [hdescs2] at hd'
    obtain ⟨d0, hd0, hval⟩ := mem_updateDescs hd'
    by_cases hty : d0.ty = t
    · rw [hval, if_pos hty]
      exact tblGet_tblRemove_self d0.table i
    · rw [hval, if_neg hty]
      exact honly d0 hd0 hty
  refine ⟨hheap, ?_, ?_, ?_⟩
  · intro d'' hd''
    rw [hd2] at hd''
    injection hd'' with hd''
    rw [← hd'']
    exact tblGet_tblRemove_self d.table i
  · intro r
    show (collectHeap r c2.descs c2.heap).shareCount i = _ ∧
      (collectHeap r c2.descs c2.heap).destroyedCount i = _
    rw [collectHeap_shareCount_other r c2.descs i hclean,
      collectHeap_destroyedCount_other r c2.descs i hclean, hheap]
    exact ⟨rfl, rfl⟩
  · intro c3 h3
    unfold destroy_all at h3
    rw [hd2] at h3
    dsimp only at h3
    simp only [Except.ok.injEq] at h3
    have h3heap : c3.heap =
        releaseAll ({ d with table := tblRemove d.table i }).trait
          ({ d with table := tblRemove d.table i }).table c2.heap := by
      rw [← h3]
    rw [h3heap]
    have hni : tblGet ({ d with table := tblRemove d.table i }).table i = none :=
      tblGet_tblRemove_self d.table i
    rw [releaseAll_shareCount_other _ _ i hni, releaseAll_destroyedCount_other _ _ i hni, hheap]
    exact ⟨rfl, rfl⟩

/-- C2: under the non-owning trait, after a full collector pass in which
no script-side reference to a weakly-wrapped instance remains and no
strong entry exists for it, each such instance is destroyed exactly once —
its destructor count goes from zero to one and it is no longer alive. -/
theorem C2_collector_destroys_once (c : Ctx) (pre post : List Descriptor) (d : Descriptor)
    (i : Nat) (e : Entry) (r : List Nat)
    (hdescs : c.descs = pre ++ d :: post)
    (htrait : d.trait = .nonOwning)
    (hweak : ∀ p ∈ d.table, p.2.strength = .weak)
    (hunreach : ∀ p ∈ d.table, p.2.handle ∉ r)
    (hnodup : (keysOf d.table).Nodup)
    (he : tblGet d.table i = some e)
    (hpre : ∀ d' ∈ pre, tblGet d'.table i = none)
    (hpost : ∀ d' ∈ post, tblGet d'.table i = none)
    (halive : 0 < c.heap.shareCount i)
    (hnever : c.heap.destroyedCount i = 0) :
    (collect c r).heap.destroyedCount i = 1 ∧ (collect c r).heap.alive i = false := by
  have hmem := tblGet_mem he
  have heweak : e.strength = .weak := hweak (i, e) hmem
  have heunreach : e.handle ∉ r := hunreach (i, e) hmem
  have hgoal : (collect c r).heap = collectHeap r c.descs c.heap := rfl
  rw [hgoal, hdescs, show pre ++ d :: post = pre ++ [d] ++ post by simp,
    collectHeap_append, collectHeap_append]
  set h1 := collectHeap r pre c.heap with hh1
  have h1s : h1.shareCount i = c.heap.shareCount i :=
    collectHeap_shareCount_other r pre i hpre c.heap
  have h1d : h1.destroyedCount i = c.heap.destroyedCount i :=
    collectHeap_destroyedCount_other r pre i hpre c.heap
  have h2 : collectHeap r [d] h1 = sweepHeap d.trait r d.table h1 := rfl
  rw [h2]
  have hhit := sweepHeap_hit d.trait r d.table i e hnodup he heweak heunreach h1
  have hrel : scriptRelease d.trait h1 i = h1.destroy i := by rw [htrait]; rfl
  rw [hrel] at hhit
  have halive1 : 0 < h1.shareCount i := by rw [h1s]; exact halive
  have hsw_s : (sweepHeap d.trait r d.table h1).shareCount i = 0 := by
    rw [hhit.1, h1.shareCount_destroy_self i halive1]
  have hsw_d : (sweepHeap d.trait r d.table h1).destroyedCount i = 1 := by
    rw [hhit.2, h1.destroyedCount_destroy_self i halive1, h1d, hnever]
  constructor
  · rw [collectHeap_destroyedCount_other r post i hpost, hsw_d]
  · unfold Heap.alive
    rw [collectHeap_shareCount_other r post i hpost, hsw_s]
    rfl

/-- C3: under the shared-owning trait, an instance with an ownership share
held outside the wrapper survives a full collector pass: the pass releases
the script-held share and the Instance Table entry, but the instance stays
alive and its destructor never runs. -/
theorem C3_collector_spares_shared (c : Ctx) (pre post : List Descriptor) (d : Descriptor)
    (i : Nat) (e : Entry) (r : List Nat)
    (hdescs : c.descs = pre ++ d :: post)
    (htrait : d.trait = .sharedOwning)
    (he : tblGet d.table i = some e)
    (heweak : e.strength = .weak)
    (heunreach : e.handle ∉ r)
    (hnodup : (keysOf d.table).Nodup)
    (hpre : ∀ d' ∈ pre, tblGet d'.table i = none)
    (hpost : ∀ d' ∈ post, tblGet d'.table i = none)
    (hprety : ∀ d' ∈ pre, d'.ty ≠ d.ty)
    (hexternal : 2 ≤ c.heap.shareCount i) :
    (collect c r).heap.alive i = true ∧
    (collect c r).heap.destroyedCount i = c.heap.destroyedCount i ∧
    ∀ d'', (collect c r).desc d.ty = some d'' → tblGet d''.table i = none := by
  have hgoal : (collect c r).heap = collectHeap r c.descs c.heap := rfl
  refine ⟨?_, ?_, ?_⟩
  · unfold Heap.alive
    rw [hgoal, hdescs, show pre ++ d :: post = pre ++ [d] ++ post by simp,
      collectHeap_append, collectHeap_append]
    set h1 := collectHeap r pre c.heap with hh1
    have h1s : h1.shareCount i = c.heap.shareCount i :=
      collectHeap_shareCount_other r pre i hpre c.heap
    have hhit := sweepHeap_hit d.trait r d.table i e hnodup he heweak heunreach h1
    have hrel : scriptRelease d.trait h1 i = h1.release i := by rw [htrait]; rfl
    rw [hrel] at hhit
    have hsh : (h1.release i).shareCount i = h1.shareCount i - 1 :=
      h1.shareCount_release_self i (by rw [h1s]; exact hexternal)
    rw [show collectHeap r [d] h1 = sweepHeap d.trait r d.table h1 from rfl,
      collectHeap_shareCount_other r post i hpost, hhit.1, hsh, h1s]
    simp only [decide_eq_true_eq]
    omega
  · rw [hgoal, hdescs, show pre ++ d :: post = pre ++ [d] ++ post by simp,
      collectHeap_append, collectHeap_append]
    set h1 := collectHeap r pre c.heap with hh1
    have h1s : h1.shareCount i = c.heap.shareCount i :=
      collectHeap_shareCount_other r pre i hpre c.heap
    have h1d : h1.destroyedCount i = c.heap.destroyedCount i :=
      collectHeap_destroyedCount_other r pre i hpre c.heap
    have hhit := sweepHeap_hit d.trait r d.table i e hnodup he heweak heunreach h1
    have hrel : scriptRelease d.trait h1 i = h1.release i := by rw [htrait]; rfl
    rw [hrel] at hhit
    have hdc : (h1.release i).destroyedCount i = h1.destroyedCount i :=
      h1.destroyedCount_release_self i (by rw [h1s]; exact hexternal)
    rw [show collectHeap r [d] h1 = sweepHeap d.trait r d.table h1 from rfl,
      collectHeap_destroyedCount_other r post i hpost, hhit.2, hdc, h1d]
  · intro d'' hd''
    have hfd : findDesc c.descs d.ty = some d := by
      rw [hdescs]
      exact findDesc_append_left hprety
    have : (collect c r).desc d.ty = some (collectDesc r d) := by
      show findDesc (c.descs.map (collectDesc r)) d.ty = _
      rw [findDesc_map_collectDesc, hfd]
      rfl
    rw [this] at hd''
    injection hd'' with hd''
    rw [← hd'']
    show tblGet (sweepTable r d.table) i = none
    exact tblGet_sweepTable_none r d.table i e hnodup he heweak heunreach

/-!
### Multiple inheritance (`test_multiple_inheritance`)

The structs `A`, `B`, `C` of `test/test_class.cpp`: `C` derives from both
`A` and `B`, each of the three types has its own field `x` (initialized to
1, 2, 3 respectively) and its own same-named method `z`.  Only `B` is
`inherit`-linked on `C`'s descriptor; `A`'s members are bound directly on
`C` using `A`'s own accessors.
-/

namespace MI

/-- `struct A { int x; A() : x(1) {} ... }` from the test. -/
structure A : Type where
  x : Int
deriving DecidableEq, Repr

/-- `struct B { int x; B() : x(2) {} ... }` from the test. -/
structure B : Type where
  x : Int
deriving DecidableEq, Repr

/-- `struct C : A, B { int x; C() : x(3) {} ... }` from the test: the `A`
and `B` base subobjects are distinct storage from `C`'s own `x`. -/
structure C : Type where
  toA : A
  toB : B
  x : Int
deriving DecidableEq, Repr

/-- `A()` — default-constructed `A`. -/
def A.init : A := ⟨1⟩

/-- `B()` — default-constructed `B`. -/
def B.init : B := ⟨2⟩

/-- `C()` — default-constructed `C` (bases default-constructed). -/
def C.init : C := ⟨A.init, B.init, 3⟩

/-- `int A::f() { return x; }` -/
def A.f (a : A) : Int := a.x

/-- `void A::set_f(int v) { x = v; }` -/
def A.set_f (a : A) (v : Int) : A := { a with x := v }

/-- `int A::z() const { return x; }` -/
def A.z (a : A) : Int := a.x

/-- `int B::g() { return x; }` -/
def B.g (b : B) : Int := b.x

/-- `void B::set_g(int v) { x = v; }` -/
def B.set_g (b : B) (v : Int) : B := { b with x := v }

/-- `int B::z() const { return x; }` -/
def B.z (b : B) : Int := b.x

/-- `int C::h() { return x; }` -/
def C.h (c : C) : Int := c.x

/-- `void C::set_h(int v) { x = v; }` -/
def C.set_h (c : C) (v : Int) : C := { c with x := v }

/-- `int C::z() const { return x; }` -/
def C.z (c : C) : Int := c.x

/-- Name-keyed binding lookup on a descriptor's binding list. -/
def lookupBinding {α : Type} : List (String × α) → String → Option α
  | [], _ => none
  | (n, f) :: rest, name => if n = name then some f else lookupBinding rest name

/-- The read bindings registered on `B`'s descriptor in the test:
`var("xB", &B::x)`, `function("zB", &B::z)`, `function("g", &B::g)`. -/
def B_getters : List (String × (B → Int)) :=
  [("xB", fun b => b.x), ("zB", B.z), ("g", B.g)]

/-- The write bindings registered on `B`'s descriptor (`var` is
read-write). -/
def B_setters : List (String × (B → Int → B)) :=
  [("xB", fun b v => { b with x := v })]

/-- The read bindings registered directly on `C`'s descriptor in the
test.  Members originating from `A` use `A`'s own accessors through the
`A` base subobject (`&A::x`, `&A::z`, `&A::f`); `&C::f` is inherited from
`A` and `&C::g` from `B`, so they act through the respective base
subobject; `&C::h`, `&C::z`, `&C::x` are `C`'s own. -/
def C_getters : List (String × (C → Int)) :=
  [("xA", fun c => c.toA.x),
   ("xC", fun c => c.x),
   ("zA", fun c => A.z c.toA),
   ("zC", fun c => C.z c),
   ("f", fun c => A.f c.toA),
   ("h", fun c => C.h c),
   ("rF", fun c => A.f c.toA),
   ("rG", fun c => B.g c.toB),
   ("rH", fun c => C.h c),
   ("F", fun c => A.f c.toA),
   ("G", fun c => B.g c.toB),
   ("H", fun c => C.h c)]

/-- The write bindings registered directly on `C`'s descriptor in the
test (`var("xA", &A::x)`, `var("xC", &C::x)` and the read-write
properties `F`, `G`, `H` with setters `&C::set_f`, `&C::set_g`,
`&C::set_h`, each acting on its originating subobject). -/
def C_setters : List (String × (C → Int → C)) :=
  [("xA", fun c v => { c with toA := { c.toA with x := v } }),
   ("xC", fun c v => { c with x := v }),
   ("F", fun c v => { c with toA := A.set_f c.toA v }),
   ("G", fun c v => { c with toB := B.set_g c.toB v }),
   ("H", fun c v => C.set_h c v)]

/-- Modelled from the spec: member read resolution on a `C` instance —
the engine looks on `C`'s own descriptor first; unresolved names follow
the single Cast Chain link to `B`'s descriptor, adjusting the instance
pointer to the `B` base subobject. -/
def C_get (name : String) (c : C) : Option Int :=
  match lookupBinding C_getters name with
  | some g => some (g c)
  | none =>
    match lookupBinding B_getters name with
    | some g => some (g c.toB)
    | none => none

/-- Modelled from the spec: member write resolution on a `C` instance —
own descriptor first, then the Cast Chain link to `B` with pointer
adjustment to the `B` base subobject. -/
def C_set (name : String) (c : C) (v : Int) : Option C :=
  match lookupBinding C_setters name with
  | some s => some (s c v)
  | none =>
    match lookupBinding B_setters name with
    | some s => some { c with toB := s c.toB v }
    | none => none

/-- Member write that leaves the instance unchanged on an unbound name. -/
def C_setD (name : String) (c : C) (v : Int) : C :=
  (C_set name c v).getD c

/-- C5: with `C` deriving from both `A` and `B`, only `B` base-linked and
`A`'s members bound directly via `A`'s accessors, reading and writing
A-originated, B-originated and C-native members (fields, methods and
properties, including the same-named `x` fields and `z` methods) through
a `C` instance each resolve to the correct distinct native storage, with
no aliasing between the three same-named members. -/
theorem C5_multiple_inheritance :
    (C_get "xA" C.init = some 1 ∧ C_get "xB" C.init = some 2 ∧ C_get "xC" C.init = some 3) ∧
    (C_get "f" C.init = some 1 ∧ C_get "g" C.init = some 2 ∧ C_get "h" C.init = some 3) ∧
    (C_get "zA" C.init = some 1 ∧ C_get "zB" C.init = some 2 ∧ C_get "zC" C.init = some 3) ∧
    (C_get "rF" C.init = some 1 ∧ C_get "rG" C.init = some 2 ∧ C_get "rH" C.init = some 3) ∧
    (∀ (c : C) (v1 v2 v3 : Int),
      C_get "xA" (C_setD "xC" (C_setD "xB" (C_setD "xA" c v1) v2) v3) = some v1 ∧
      C_get "xB" (C_setD "xC" (C_setD "xB" (C_setD "xA" c v1) v2) v3) = some v2 ∧
      C_get "xC" (C_setD "xC" (C_setD "xB" (C_setD "xA" c v1) v2) v3) = some v3 ∧
      C_get "zA" (C_setD "xC" (C_setD "xB" (C_setD "xA" c v1) v2) v3) = some v1 ∧
      C_get "zB" (C_setD "xC" (C_setD "xB" (C_setD "xA" c v1) v2) v3) = some v2 ∧
      C_get "zC" (C_setD "xC" (C_setD "xB" (C_setD "xA" c v1) v2) v3) = some v3) ∧
    (∀ (c : C) (v1 v2 v3 : Int),
      C_get "F" (C_setD "H" (C_setD "G" (C_setD "F" c v1) v2) v3) = some v1 ∧
      C_get "G" (C_setD "H" (C_setD "G" (C_setD "F" c v1) v2) v3) = some v2 ∧
      C_get "H" (C_setD "H" (C_setD "G" (C_setD "F" c v1) v2) v3) = some v3) := by
  refine ⟨⟨rfl, rfl, rfl⟩, ⟨rfl, rfl, rfl⟩, ⟨rfl, rfl, rfl⟩, ⟨rfl, rfl, rfl⟩, ?_, ?_⟩
  · intro c v1 v2 v3
    obtain ⟨⟨a⟩, ⟨b⟩, x⟩ := c
    exact ⟨rfl, rfl, rfl, rfl, rfl, rfl⟩
  · intro c v1 v2 v3
    obtain ⟨⟨a⟩, ⟨b⟩, x⟩ := c
    exact ⟨rfl, rfl, rfl⟩

end MI

/-! ### Concrete states used by the witnesses -/

/-- The empty heap: no instance allocated, no destructor has run. -/
def heap0 : Heap := { shareCount := fun _ => 0, destroyedCount := fun _ => 0 }

/-- A fresh context with no registered class. -/
def ctx0 : Ctx := { descs := [], heap := heap0, nextHandle := 0 }

/-- A context with one non-owning class registered (type 0). -/
def ctxReg : Ctx :=
  { descs := [⟨0, .nonOwning, none, false, [], []⟩], heap := heap0, nextHandle := 0 }

/-- A context with one shared-owning class registered (type 0). -/
def ctxRegS : Ctx :=
  { descs := [⟨0, .sharedOwning, none, false, [], []⟩], heap := heap0, nextHandle := 0 }

/-- A context with two non-owning classes registered (types 0 and 1). -/
def ctxTwo : Ctx :=
  { descs := [⟨0, .nonOwning, none, false, [], []⟩, ⟨1, .nonOwning, none, false, [], []⟩],
    heap := heap0, nextHandle := 0 }

/-- The context produced by a wrapping operation, or the fallback. -/
def wrapOr (e : Except Err (Nat × Ctx)) (c : Ctx) : Ctx :=
  match e with
  | .ok p => p.2
  | .error _ => c

/-- The context produced by a lifecycle step, or the fallback. -/
def stepOr (e : Except Err Ctx) (c : Ctx) : Ctx :=
  match e with
  | .ok c' => c'
  | .error _ => c

/-- `ctxReg` after `create_wrapped` of instance 1 (weak entry, handle 0). -/
def ctxW : Ctx := wrapOr (create_wrapped ctxReg 0 1) ctxReg

/-- `ctxReg` after `reference_external` of instance 1 (strong entry). -/
def ctxR : Ctx := wrapOr (reference_external ctxReg 0 1) ctxReg

/-- `ctxR` after `unreference_external` of instance 1. -/
def ctxU : Ctx := stepOr (unreference_external ctxR 0 1) ctxR

/-- `ctxRegS` after `import_external` of instance 1 plus an external
ownership share retained by the caller. -/
def ctxS : Ctx := retain_external (wrapOr (import_external ctxRegS 0 1) ctxRegS) 1

/-- `ctxTwo` after linking type 0 to base type 1. -/
def ctxL : Ctx := stepOr (link_base ctxTwo 0 1) ctxTwo

/-- `ctxW` after `destroy_all` on type 0. -/
def ctxD1 : Ctx := stepOr (destroy_all ctxW 0) ctxW

/-! ### Witnesses -/

/-- Witness for C1 at a concrete wrap. -/
theorem C1_witness :
    unwrap_object ctxW 0 0 = .ok (some 1) ∧ to_script ctxW 0 1 = .ok 0 :=
  (C1_wrap_roundtrip .createWrapped ctxReg ctxW 0 1 0
    ⟨0, .nonOwning, none, false, [], []⟩ rfl rfl rfl).1

/-- Witness for C2 at a concrete collector pass. -/
theorem C2_witness :
    (collect ctxW []).heap.destroyedCount 1 = 1 ∧ (collect ctxW []).heap.alive 1 = false :=
  C2_collector_destroys_once ctxW [] [] ⟨0, .nonOwning, none, false, [], [(1, ⟨0, .weak⟩)]⟩
    1 ⟨0, .weak⟩ [] rfl rfl (by decide) (by decide) (by decide) rfl (by decide) (by decide)
    (by decide) rfl

/-- Witness for C3 at a concrete collector pass. -/
theorem C3_witness :
    (collect ctxS []).heap.alive 1 = true ∧
    (collect ctxS []).heap.destroyedCount 1 = ctxS.heap.destroyedCount 1 ∧
    tblGet (Descriptor.table ⟨0, .sharedOwning, none, false, [], []⟩) 1 = none := by
  have h := C3_collector_spares_shared ctxS [] []
    ⟨0, .sharedOwning, none, false, [], [(1, ⟨0, .weak⟩)]⟩ 1 ⟨0, .weak⟩ []
    rfl rfl rfl rfl (by decide) (by decide) (by decide) (by decide) (by decide) (by decide)
  exact ⟨h.1, h.2.1, h.2.2 ⟨0, .sharedOwning, none, false, [], []⟩ rfl⟩

/-- Witness for C4 at a concrete unreference. -/
theorem C4_witness :
    unwrap_object ctxU 0 0 = .ok none ∧
    to_script ctxU 0 1 = .error .instanceNotTracked ∧
    handle_empty ctxU 0 0 = true :=
  C4_unreference_removes_binding ctxR ctxU 0 1
    ⟨0, .nonOwning, none, false, [], [(1, ⟨0, .strong⟩)]⟩ ⟨0, .strong⟩
    rfl rfl rfl (by decide) rfl

/-- Witness for C6 at a concrete double registration. -/
theorem C6_witness :
    (ctxReg.desc 0).isSome = true ∧
    (register ctxReg 0 .sharedOwning = .error .alreadyRegistered ∧
     tryRegister ctxReg 0 .sharedOwning = ctxReg) :=
  ⟨(C6_register_twice ctx0 ctxReg 0 .nonOwning rfl).1,
   (C6_register_twice ctx0 ctxReg 0 .nonOwning rfl).2 ctxReg
     ⟨0, .nonOwning, none, false, [], []⟩ .sharedOwning rfl⟩

/-- Witness for C7 at a concrete repeated `destroy_all`. -/
theorem C7_witness : destroy_all ctxD1 0 = .ok ctxD1 :=
  C7_destroy_all_idempotent ctxW ctxD1 0 rfl

/-- Witness for C8 at a concrete double base link. -/
theorem C8_witness :
    (ctxL.desc 0).map Descriptor.baseLink = some (some 1) ∧
    (link_base ctxL 0 2 = .error .alreadyLinked ∧ tryLink ctxL 0 2 = ctxL) :=
  ⟨(C8_link_base_twice ctxTwo ctxL 0 1 rfl).1,
   (C8_link_base_twice ctxTwo ctxL 0 1 rfl).2 2⟩

/-- Witness for C9 at a concrete unregistered type. -/
theorem C9_witness :
    unwrap_object ctx0 5 0 = .error .unregisteredType ∧
    to_script ctx0 5 0 = .error .unregisteredType :=
  C9_unregistered_type ctx0 5 0 0 rfl

/-- Witness for C10 at a concrete unreference, collector pass included. -/
theorem C10_witness :
    ctxU.heap = ctxR.heap ∧
    ((collect ctxU []).heap.shareCount 1 = ctxR.heap.shareCount 1 ∧
     (collect ctxU []).heap.destroyedCount 1 = ctxR.heap.destroyedCount 1) :=
  ⟨(C10_unreference_never_destroys ctxR ctxU 0 1
      ⟨0, .nonOwning, none, false, [], [(1, ⟨0, .strong⟩)]⟩ ⟨0, .strong⟩
      rfl rfl rfl (by decide) rfl).1,
   (C10_unreference_never_destroys ctxR ctxU 0 1
      ⟨0, .nonOwning, none, false, [], [(1, ⟨0, .strong⟩)]⟩ ⟨0, .strong⟩
      rfl rfl rfl (by decide) rfl).2.2.1 []⟩

end V8pp
